import Mathlib

/-!
# Verification of the errfmt structured-record formatting engine

Shallow embedding of the Go sources of `pgillich/errfmt`
(`errorformatter.go`, `formatter.go`, `formatter_text.go`,
`formatter_syslog.go`) and proofs of the specification claims about them.

Modelling conventions:
* Go `map[string]interface{}` (`logrus.Fields`) is modelled as an
  association list `List (String × GoValue)` with distinct keys; the map's
  random iteration order is immaterial for the modelled code paths because
  the emitters sort the key list before use.
* Go dynamic values (`interface{}`) are modelled by the closed inductive
  `GoValue`, covering the value shapes the formatting engine dispatches on:
  strings, integers, booleans, string lists (call stacks), wrapped-error
  chains and values whose JSON marshalling fails.
* An error chain is modelled at the boundary of the external emperror
  library: the `GoValue.err` constructor carries the chain's rendered
  message (`Error()`), its flattened key-value details
  (`keyval.ToMap(errors.GetDetails(err))`) and the call-stack lines that
  `buildCallStackLines` extracts from its stack capture (empty when the
  chain has no `StackTracer` capability).
* Machine integers: field weights are small configured constants; they are
  modelled as `Int` (no overflow occurs in any modelled path).
-/

/-- Model of a Go `interface{}` value as consumed by the formatting engine.
`err msg details stack` models a wrapped-error chain (external emperror
boundary: message, flattened details, built call-stack lines).
`bad msg` models a value whose `json.Marshal` fails with error text `msg`
(for example an unsupported type such as a channel). -/
inductive GoValue where
  | str (s : String)
  | int (n : Int)
  | bool (b : Bool)
  | strList (xs : List String)
  | err (msg : String) (details : List (String × GoValue)) (stack : List String)
  | bad (msg : String)

/-- `logrus.Fields`: a string-keyed map, modelled as an association list. -/
abbrev Fields := List (String × GoValue)

/-- Map lookup (first binding wins; keys are distinct in every Go map). -/
def alGet {β : Type} : List (String × β) → String → Option β
  | [], _ => none
  | (k', v) :: rest, k => if k' = k then some v else alGet rest k

/-- Map update `m[k] = v`: replaces the existing binding or appends one. -/
def alSet {β : Type} : List (String × β) → String → β → List (String × β)
  | [], k, v => [(k, v)]
  | (k', v') :: rest, k, v =>
      if k' = k then (k, v) :: rest else (k', v') :: alSet rest k v

/-- Map deletion `delete(m, k)`. -/
def alDel {β : Type} (m : List (String × β)) (k : String) : List (String × β) :=
  m.filter (fun p => p.1 ≠ k)

/-- The key list of a map. -/
def keysOf {β : Type} (m : List (String × β)) : List String :=
  m.map Prod.fst

/-- `KeyCallStack` (errorformatter.go): field name for the call stack. -/
def KeyCallStack : String := "callstack"

/-- `KeyHandlerFunc` (errorformatter.go): field key of the HTTP handler. -/
def KeyHandlerFunc : String := "handlerFunc"

/-- `FlagExtractDetails` (1 << 0). -/
def FlagExtractDetails : Nat := 1

/-- `FlagCallStackInFields` (1 << 1). -/
def FlagCallStackInFields : Nat := 2

/-- `FlagCallStackOnConsole` (1 << 2). -/
def FlagCallStackOnConsole : Nat := 4

/-- `FlagCallStackInHTTPProblem` (1 << 3). -/
def FlagCallStackInHTTPProblem : Nat := 8

/-- `FlagPrintStructFieldNames` (1 << 4). -/
def FlagPrintStructFieldNames : Nat := 16

/-- `FlagTrimJSONDquote` (1 << 5). -/
def FlagTrimJSONDquote : Nat := 32

/-- `DisabledFieldWeight`: the sentinel weight intended to drop a field
during ordering. Its declaration for the `errfmt` package is not among the
given source files; the value -100 is taken from the earlier
`errorformatter` revision of the same file and from the repository README,
which document it unchanged. -/
def DisabledFieldWeight : Int := -100

/-! ## Field Policy: ordering (formatter_text.go) -/

/-- A field-order configuration: field name to weight (Go `map[string]int`). -/
abbrev FieldOrder := List (String × Int)

/-- `EntryFieldSorter.weight`: the configured weight of a name, 0 if absent. -/
def weightOf (fieldOrder : FieldOrder) (k : String) : Int :=
  (alGet fieldOrder k).getD 0

/-- `EntryFieldSorter.Less`: strict comparison used by the sorter —
by weight descending, ties broken by ascending name. -/
def fieldLess (fieldOrder : FieldOrder) (a b : String) : Bool :=
  if weightOf fieldOrder a = weightOf fieldOrder b then
    decide (a < b)
  else
    decide (weightOf fieldOrder a > weightOf fieldOrder b)

/-- The non-strict order induced by `fieldLess`: `a` may precede `b` in a
list sorted by `sort.Sort` exactly when `¬ Less b a`. -/
def sortRel (fieldOrder : FieldOrder) (a b : String) : Prop :=
  fieldLess fieldOrder b a = false

instance (fieldOrder : FieldOrder) : DecidableRel (sortRel fieldOrder) :=
  fun _ _ => instDecidableEqBool _ _

/-- `SortingFuncDecorator`: sorts a key list with `EntryFieldSorter`
(`sort.Sort` over `Less`); the result is the `sortRel`-sorted permutation
of the input, which is unique because `sortRel` is total, transitive and
antisymmetric (proved below). -/
def SortingFuncDecorator (fieldOrder : FieldOrder) (keys : List String) : List String :=
  List.insertionSort (sortRel fieldOrder) keys

/-- `AdvancedFieldOrder` (formatter_text.go): the default field order.
The `DisabledFieldWeight` entry is commented out in the source. -/
def AdvancedFieldOrder : FieldOrder :=
  [("level", 100), ("time", 90), (KeyHandlerFunc, 81), ("func", 80),
   ("error", 70), ("msg", 60), ("logrus_error", 50), ("file", 40),
   (KeyCallStack, -10)]

/-- The ordering the specification describes for the Field Policy:
descending weight, ties broken by ascending alphabetical name. -/
def fieldOrdSpec (fieldOrder : FieldOrder) (a b : String) : Prop :=
  weightOf fieldOrder a > weightOf fieldOrder b ∨
    (weightOf fieldOrder a = weightOf fieldOrder b ∧ a ≤ b)

instance (fieldOrder : FieldOrder) : DecidableRel (fieldOrdSpec fieldOrder) :=
  fun _ _ => inferInstanceAs (Decidable (_ ∨ _))

theorem sortRel_iff (fieldOrder : FieldOrder) (a b : String) :
    sortRel fieldOrder a b ↔ fieldOrdSpec fieldOrder a b := by
  unfold sortRel fieldLess fieldOrdSpec
  by_cases h : weightOf fieldOrder b = weightOf fieldOrder a
  · rw [if_pos h, h]
    simp [decide_eq_false_iff_not, not_lt, lt_irrefl]
  · rw [if_neg h]
    simp only [decide_eq_false_iff_not, not_lt]
    constructor
    · intro hle
      exact Or.inl (lt_of_le_of_ne hle h)
    · rintro (hgt | ⟨he, _⟩)
      · exact le_of_lt hgt
      · exact absurd he.symm h

instance (fieldOrder : FieldOrder) : IsTotal String (sortRel fieldOrder) := by
  constructor
  intro a b
  rw [sortRel_iff, sortRel_iff]
  unfold fieldOrdSpec
  rcases lt_trichotomy (weightOf fieldOrder a) (weightOf fieldOrder b) with h | h | h
  · exact Or.inr (Or.inl h)
  · rcases le_total a b with hab | hba
    · exact Or.inl (Or.inr ⟨h, hab⟩)
    · exact Or.inr (Or.inr ⟨h.symm, hba⟩)
  · exact Or.inl (Or.inl h)

instance (fieldOrder : FieldOrder) : IsTrans String (sortRel fieldOrder) := by
  constructor
  intro a b c hab hbc
  rw [sortRel_iff] at *
  rcases hab with h1 | ⟨e1, l1⟩ <;> rcases hbc with h2 | ⟨e2, l2⟩
  · exact Or.inl (lt_trans h2 h1)
  · exact Or.inl (e2 ▸ h1)
  · exact Or.inl (e1 ▸ h2)
  · exact Or.inr ⟨e1.trans e2, le_trans l1 l2⟩

instance (fieldOrder : FieldOrder) : IsAntisymm String (sortRel fieldOrder) := by
  constructor
  intro a b hab hba
  rw [sortRel_iff] at *
  rcases hab with h1 | ⟨e1, l1⟩ <;> rcases hba with h2 | ⟨e2, l2⟩
  · exact absurd (lt_trans h1 h2) (lt_irrefl _)
  · exact absurd (e2 ▸ h1) (lt_irrefl _)
  · exact absurd (e1 ▸ h2) (lt_irrefl _)
  · exact le_antisymm l1 l2

/-! ## Value rendering and JSON marshalling (errorformatter.go) -/

/-- Minimal JSON string escaping (backslash and double quote; the modelled
inputs contain no control characters). External `encoding/json` boundary. -/
def jsonEscapeChar (c : Char) : String :=
  if c = '\\' then "\\\\" else if c = '"' then "\\\"" else String.mk [c]

/-- JSON string quoting, external `encoding/json` boundary. -/
def jsonQuote (s : String) : String :=
  "\"" ++ String.join (s.data.map jsonEscapeChar) ++ "\""

/-- `JSONMarshal` (errorformatter.go): `encoding/json` encoding with HTML
escaping disabled and the trailing newline removed, returning either the
encoded bytes or the marshalling error. A `GoValue.bad` value fails with
its error text; all other modelled values encode. An error-chain value
encodes as an empty object (it is always replaced by its message string by
the rendering stages before any modelled marshalling call). -/
def JSONMarshal : GoValue → Except String String
  | .str s => .ok (jsonQuote s)
  | .int n => .ok (toString n)
  | .bool b => .ok (if b then "true" else "false")
  | .strList xs => .ok ("[" ++ String.intercalate "," (xs.map jsonQuote) ++ "]")
  | .err _ _ _ => .ok "{}"
  | .bad msg => .error msg

/-- The rendered value of a field as used by the emitters: the JSON form,
or (recovery path) the marshalling error's message string. -/
def jsonValueOf (v : GoValue) : String :=
  match JSONMarshal v with
  | .ok s => s
  | .error e => e

/-- `fmt.Sprintf("%s", v)` on a modelled value (external fmt boundary;
only the string case is exercised by the modelled code). -/
def sprintfS : GoValue → String
  | .str s => s
  | .int n => toString n
  | .bool b => if b then "true" else "false"
  | .strList xs => "[" ++ String.intercalate " " xs ++ "]"
  | .err m _ _ => m
  | .bad _ => "%!s(BADVALUE)"

/-- `fmt.Sprintf("%+v", v)` on a modelled value (external fmt boundary). -/
def sprintfPlusV : GoValue → String
  | .str s => s
  | .int n => toString n
  | .bool b => if b then "true" else "false"
  | .strList xs => "[" ++ String.intercalate " " xs ++ "]"
  | .err m _ _ => m
  | .bad _ => "%!v(BADVALUE)"

/-- `reflect` kind test of `AdvancedFormatter.RenderFieldValues`:
`val.Kind() != reflect.String && !IsNumeric(val.Kind())`. -/
def isNonScalar : GoValue → Bool
  | .str _ => false
  | .int _ => false
  | _ => true

/-- Whether a value is a Go `error` (the `value.(error)` type assertion). -/
def isGoError : GoValue → Bool
  | .err _ _ _ => true
  | _ => false

/-! ## Log records (external logrus boundary) -/

/-- `logrus.Level`, ordered severity. -/
inductive LogLevel where
  | panic | fatal | error | warn | info | debug | trace
deriving DecidableEq

/-- `logrus.Level` text, as marshalled by logrus (`MarshalText`/`String`). -/
def levelText : LogLevel → String
  | .panic => "panic"
  | .fatal => "fatal"
  | .error => "error"
  | .warn => "warning"
  | .info => "info"
  | .debug => "debug"
  | .trace => "trace"

/-- A `logrus.Entry` as consumed by the formatters: level, formatted
timestamp, message, optional prettified caller (function, file:line) and
the field map. An attached error lives in `data` under the key `"error"`
(the result of `log.WithError`). -/
structure Entry where
  level : LogLevel
  timeStr : String
  message : String
  caller : Option (String × String)
  data : Fields

/-- `GetError` (formatter.go): the error attached to the entry, that is the
`"error"` data value when it is an error chain. -/
def GetError (entry : Entry) : Option (String × List (String × GoValue) × List String) :=
  match alGet entry.data "error" with
  | some (.err m det st) => some (m, det, st)
  | _ => none

/-- `GetCallStack` (formatter.go, free function; named `GetCallStackRaw`
here because Lean cannot overload it with the method of the same Go name):
the call-stack lines built from the attached error's stack capture,
`[]` if absent. -/
def GetCallStackRaw (entry : Entry) : List String :=
  match GetError entry with
  | some (_, _, st) => st
  | none => []

/-- The configuration part of `AdvancedFormatter` (formatter.go). -/
structure AdvancedFormatter where
  Flags : Nat
  CallStackSkipLastX : Nat

/-- `AdvancedFormatter.GetCallStack` (formatter.go): the truncated call
stack — the lines without the last `CallStackSkipLastX` ones when there are
more than that many and a call-stack flag is on, `[]` otherwise. -/
def AdvancedFormatter.GetCallStack (f : AdvancedFormatter) (entry : Entry) : List String :=
  if f.Flags &&& (FlagCallStackInFields ||| FlagCallStackOnConsole |||
      FlagCallStackInHTTPProblem) ≠ 0 then
    let callStackLines := GetCallStackRaw entry
    if callStackLines.length > f.CallStackSkipLastX then
      callStackLines.take (callStackLines.length - f.CallStackSkipLastX)
    else
      []
  else
    []

/-- `AppendCallStackToEntry` (formatter.go): the hook that stores the
truncated call stack under `"callstack"` when more than `callStackSkipLast`
lines exist, leaving the data untouched otherwise. -/
def AppendCallStackToEntry (callStackSkipLast : Nat) (entry : Entry) : Fields :=
  let callStackLines := GetCallStackRaw entry
  if callStackLines.length > callStackSkipLast then
    alSet entry.data KeyCallStack
      (.strList (callStackLines.take (callStackLines.length - callStackSkipLast)))
  else
    entry.data

/-! ## Field Policy: clash renaming and field preparation -/

/-- `prefixFieldClashes` (formatter_syslog.go): when `key` is present, its
value is re-stored under `"fields." ++ key` and `key` is deleted. -/
def prefixFieldClashes (data : Fields) (key : String) : Fields :=
  match alGet data key with
  | some v => alDel (alSet data ("fields." ++ key) v) key
  | none => data

/-- `GetClashingFieldsSyslog` (formatter_syslog.go); `KeyCallStack` is
commented out in the source. -/
def GetClashingFieldsSyslog : List String :=
  ["level", "time", "func", "msg", "file"]

/-- `GetClashingFieldsHTTP` (errorformatter.go). -/
def GetClashingFieldsHTTP : List String :=
  ["time", "func", "msg", "file", KeyCallStack]

/-- `MergeDetailsToFields` (formatter.go): with `FlagExtractDetails` and an
attached error, the flattened error details are merged over a copy of the
entry data (`entry.WithFields` semantics: a detail overrides an existing
key); otherwise a plain copy. -/
def MergeDetailsToFields (f : AdvancedFormatter) (entry : Entry) : Fields :=
  if f.Flags &&& FlagExtractDetails ≠ 0 then
    match GetError entry with
    | some (_, det, _) => det.foldl (fun acc p => alSet acc p.1 p.2) entry.data
    | none => entry.data
  else
    entry.data

/-- The per-value transform of `AdvancedFormatter.RenderFieldValues`. -/
def renderFieldValue (f : AdvancedFormatter) : GoValue → GoValue
  | .err m _ _ => .str m
  | v =>
      if f.Flags &&& FlagPrintStructFieldNames ≠ 0 ∧ isNonScalar v then
        .str (sprintfPlusV v)
      else
        v

/-- `AdvancedFormatter.RenderFieldValues` (formatter.go): error values are
replaced by their message; with `FlagPrintStructFieldNames`, non-scalar
values are replaced by their `%+v` rendering. -/
def RenderFieldValues (f : AdvancedFormatter) (data : Fields) : Fields :=
  data.map (fun p => (p.1, renderFieldValue f p.2))

/-- The per-value transform of `RenderErrorInEntry`: an error value becomes
its `Error()` message, anything else is kept. -/
def renderErrValue : GoValue → GoValue
  | .err m _ _ => .str m
  | v => v

/-- `RenderErrorInEntry` (formatter.go): every error value in the data is
replaced by its `Error()` message. -/
def RenderErrorInEntry (data : Fields) : Fields :=
  data.map (fun p => (p.1, renderErrValue p.2))

/-- `AdvancedFormatter.PrepareFields` (formatter.go): merge error details,
rename clashing fields, add the call stack field if enabled, render values,
add caller fields, add the level (except at panic level). -/
def AdvancedFormatter.PrepareFields (f : AdvancedFormatter) (entry : Entry)
    (fixedFields : List String) : Fields :=
  let data := MergeDetailsToFields f entry
  let data := fixedFields.foldl prefixFieldClashes data
  let data :=
    if f.Flags &&& FlagCallStackInFields ≠ 0 then
      alSet data KeyCallStack (.strList (f.GetCallStack entry))
    else
      data
  let data := RenderFieldValues f data
  let data :=
    match entry.caller with
    | some (funcVal, fileVal) =>
        alSet (alSet data "func" (.str funcVal)) "file" (.str fileVal)
    | none => data
  if entry.level ≠ .panic then
    alSet data "level" (.str (levelText entry.level))
  else
    data

/-- `PrepareFields` (formatter.go, free function, used by the syslog
emitter): rename clashing fields, add caller fields, always add the level. -/
def PrepareFields (entry : Entry) (fixedFields : List String) : Fields :=
  let data := fixedFields.foldl prefixFieldClashes entry.data
  let data :=
    match entry.caller with
    | some (funcVal, fileVal) =>
        alSet (alSet data "func" (.str funcVal)) "file" (.str fileVal)
    | none => data
  alSet data "level" (.str (levelText entry.level))

/-! ## Syslog Emitter (formatter_syslog.go) -/

/-- `StructuredIDDetails`. -/
def StructuredIDDetails : String := "details"

/-- `StructuredIDCallStack`. -/
def StructuredIDCallStack : String := "calls"

/-- The per-byte SD-NAME sanitization step of `FixStructuredDataName`:
bytes outside `'!'..'~'` and the bytes `'='`, `' '`, `']'`, `'"'` become
`'_'`; everything else is kept. Bytes are modelled as `Nat` values. -/
def sdNameByte (b : Nat) : Nat :=
  if b < '!'.toNat ∨ b > '~'.toNat ∨ b = '='.toNat ∨ b = ' '.toNat ∨
      b = ']'.toNat ∨ b = '"'.toNat then
    '_'.toNat
  else
    b

/-- `FixStructuredDataName` (formatter_syslog.go), at the byte level the Go
loop works on: each byte of the name is passed through `sdNameByte` and the
results are concatenated. -/
def FixStructuredDataNameBytes : List Nat → List Nat
  | [] => []
  | b :: rest => sdNameByte b :: FixStructuredDataNameBytes rest

/-- The specification's SD-NAME character class, as a predicate on a byte:
printable `'!'..'~'` and not one of `'='`, `' '`, `']'`, `'"'`. -/
def sdAllowedByte (b : Nat) : Bool :=
  '!'.toNat ≤ b && b ≤ '~'.toNat && b ≠ '='.toNat && b ≠ ' '.toNat &&
    b ≠ ']'.toNat && b ≠ '"'.toNat

/-- The character-level SD-NAME sanitization step. -/
def sdNameChar (c : Char) : Char :=
  if c.toNat < '!'.toNat ∨ c.toNat > '~'.toNat ∨ c = '=' ∨ c = ' ' ∨
      c = ']' ∨ c = '"' then '_' else c

/-- `FixStructuredDataName` applied to a `String` (the emitters only feed
it ASCII names, for which this character-level transform coincides with
the byte-level `FixStructuredDataNameBytes`). -/
def FixStructuredDataName (name : String) : String :=
  String.mk (name.data.map sdNameChar)

/-- One RFC5424 structured-data param, `(name, value)`. -/
abbrev SDParam := String × String

/-- `JSONDataElement`: an SD-ID with its ordered params. -/
structure JSONDataElement where
  id : String
  params : List SDParam

/-- The value part of `JSONDataElement.Append` (formatter_syslog.go):
the JSON form of the value — or, when marshalling fails, the marshalling
error's message — optionally stripped of surrounding JSON double quotes. -/
def appendValue (value : GoValue) (trimJSONDquote : Bool) : String :=
  let jsonValue := jsonValueOf value
  if trimJSONDquote ∧ jsonValue.startsWith "\"" ∧ jsonValue.endsWith "\"" then
    (jsonValue.drop 1).dropRight 1
  else
    jsonValue

/-- `JSONDataElement.Append` (formatter_syslog.go): the structured-data
param built for a field — sanitized name and rendered value. -/
def JSONDataElement.Append (name : String) (value : GoValue)
    (trimJSONDquote : Bool) : SDParam :=
  (FixStructuredDataName name, appendValue value trimJSONDquote)

/-- Configuration of `AdvancedSyslogFormatter` relevant to the modelled
output portion (flags and the configured MSGID; the header fields besides
MSGID are passed through from configuration by the external rfc5424
library). -/
structure AdvancedSyslogFormatter where
  Flags : Nat
  MsgID : String

/-- The modelled output of `AdvancedSyslogFormatter.Format`: the
structured-data elements, the MSGID and the MSG part. -/
structure SyslogOut where
  structuredData : List JSONDataElement
  msgID : String
  msg : String

/-- `AdvancedSyslogFormatter.Format` (formatter_syslog.go), restricted to
the structured-data, MSGID and MSG portions of the emitted line:
prepare fields (clash renaming, caller, level), render error values,
split off the `"callstack"` key, sort the remaining keys, build the
`details` element, and with a call-stack field present build the second
`calls` element and switch the default MSGID. -/
def AdvancedSyslogFormatter.Format (f : AdvancedSyslogFormatter)
    (entry : Entry) : SyslogOut :=
  let data := PrepareFields entry GetClashingFieldsSyslog
  let data := RenderErrorInEntry data
  let hasKeyCallStack := KeyCallStack ∈ keysOf data
  let detailKeys := (keysOf data).filter (fun k => k ≠ KeyCallStack)
  let trimJSONDquote := f.Flags &&& FlagTrimJSONDquote ≠ 0
  let sortedKeys := SortingFuncDecorator AdvancedFieldOrder detailKeys
  let detailList : JSONDataElement :=
    ⟨StructuredIDDetails,
      sortedKeys.map (fun k =>
        JSONDataElement.Append k ((alGet data k).getD (.str "")) trimJSONDquote)⟩
  let structuredData :=
    if hasKeyCallStack then
      [detailList,
        ⟨StructuredIDCallStack,
          [JSONDataElement.Append KeyCallStack
            ((alGet data KeyCallStack).getD (.str "")) trimJSONDquote]⟩]
    else
      [detailList]
  let msgIDdefault := if hasKeyCallStack then "DETAILS_CALLS_MSG" else "DETAILS_MSG"
  let msgID := if f.MsgID = "" then msgIDdefault else f.MsgID
  ⟨structuredData, msgID, entry.message⟩

/-! ## HTTP Problem Builder (errorformatter.go) -/

/-- `http.StatusText` for the status codes exercised here (external Go
standard library boundary; unknown codes yield the empty string). -/
def statusText (code : Nat) : String :=
  if code = 404 then "Not Found"
  else if code = 412 then "Precondition Failed"
  else if code = 500 then "Internal Server Error"
  else ""

/-- `HTTPProblem` (errorformatter.go): the RFC7807 problem body; `details`
is a string map (each value individually JSON-marshalled). -/
structure HTTPProblem where
  type_ : String
  title : String
  status : Nat
  detail : String
  details : List (String × String)
  callStack : List String

/-- `BuildHTTPProblem` (errorformatter.go): prepare the fields, add the
formatted time, truncate the call stack, and assemble the problem body.
`detail` is the attached error's message; with no error it falls back to
the `"msg"` data value (and otherwise stays empty). -/
def BuildHTTPProblem (f : AdvancedFormatter) (statusCode : Nat)
    (entry : Entry) : HTTPProblem :=
  let data := f.PrepareFields entry GetClashingFieldsHTTP
  let data := alSet data "time" (.str entry.timeStr)
  let callStackLines := f.GetCallStack entry
  let callStack :=
    if f.Flags &&& FlagCallStackInHTTPProblem ≠ 0 then callStackLines else []
  let title := statusText statusCode
  let details := data.map (fun p => (p.1, jsonValueOf p.2))
  let detail :=
    match GetError entry with
    | some (m, _, _) => m
    | none =>
        match alGet data "msg" with
        | some msg => sprintfS msg
        | none => ""
  ⟨"about:blank", title, statusCode, detail, details, callStack⟩

/-! ## Association-list lemmas -/

theorem alGet_alSet_self {β : Type} (m : List (String × β)) (k : String) (v : β) :
    alGet (alSet m k v) k = some v := by
  induction m with
  | nil => simp [alSet, alGet]
  | cons p rest ih =>
      by_cases h : p.1 = k
      · simp [alSet, h, alGet]
      · simp [alSet, h, alGet, ih]

theorem alGet_alSet_ne {β : Type} (m : List (String × β)) {k' k : String} {v : β}
    (h : k' ≠ k) : alGet (alSet m k' v) k = alGet m k := by
  induction m with
  | nil => simp [alSet, alGet, h]
  | cons p rest ih =>
      by_cases hp : p.1 = k'
      · simp [alSet, hp, alGet, h]
      · simp [alSet, hp, alGet, ih]

theorem alGet_alDel_self {β : Type} (m : List (String × β)) (k : String) :
    alGet (alDel m k) k = none := by
  induction m with
  | nil => simp [alDel, alGet]
  | cons p rest ih =>
      by_cases hp : p.1 = k
      · simpa [alDel, hp] using ih
      · simpa [alDel, hp, alGet, hp] using ih

theorem keysOf_cons {β : Type} (p : String × β) (m : List (String × β)) :
    keysOf (p :: m) = p.1 :: keysOf m := rfl

theorem alGet_alDel_ne {β : Type} (m : List (String × β)) {k' k : String}
    (h : k' ≠ k) : alGet (alDel m k') k = alGet m k := by
  induction m with
  | nil => rfl
  | cons p rest ih =>
      obtain ⟨k1, v1⟩ := p
      by_cases hp : k1 = k'
      · have hpk : k1 ≠ k := by rw [hp]; exact h
        have hstep : alDel ((k1, v1) :: rest) k' = alDel rest k' := by
          simp [alDel, hp]
        rw [hstep, ih]
        simp [alGet, hpk]
      · have hstep : alDel ((k1, v1) :: rest) k' = (k1, v1) :: alDel rest k' := by
          simp [alDel, hp]
        rw [hstep]
        by_cases hk : k1 = k
        · simp [alGet, hk]
        · simp [alGet, hk, ih]

theorem mem_keysOf_of_alGet {β : Type} {m : List (String × β)} {k : String} {v : β}
    (h : alGet m k = some v) : k ∈ keysOf m := by
  induction m with
  | nil => simp [alGet] at h
  | cons p rest ih =>
      obtain ⟨k1, v1⟩ := p
      by_cases hp : k1 = k
      · rw [keysOf_cons, hp]
        exact List.mem_cons_self _ _
      · rw [alGet, if_neg hp] at h
        exact List.mem_cons_of_mem _ (ih h)

theorem alGet_eq_none_of_not_mem {β : Type} {m : List (String × β)} {k : String}
    (h : k ∉ keysOf m) : alGet m k = none := by
  induction m with
  | nil => rfl
  | cons p rest ih =>
      obtain ⟨k1, v1⟩ := p
      rw [keysOf_cons, List.mem_cons] at h
      push_neg at h
      rw [alGet, if_neg (Ne.symm h.1), ih h.2]

theorem mem_keysOf_alSet {β : Type} (m : List (String × β)) (k' k : String) (v : β)
    (h : k ∈ keysOf m) : k ∈ keysOf (alSet m k' v) := by
  induction m with
  | nil => simp [keysOf] at h
  | cons p rest ih =>
      obtain ⟨k1, v1⟩ := p
      rw [keysOf_cons, List.mem_cons] at h
      by_cases hp : k1 = k'
      · have hstep : alSet ((k1, v1) :: rest) k' v = (k', v) :: rest := by
          simp [alSet, hp]
        rw [hstep, keysOf_cons, List.mem_cons]
        rcases h with h | h
        · exact Or.inl (by rw [h, hp])
        · exact Or.inr h
      · have hstep : alSet ((k1, v1) :: rest) k' v = (k1, v1) :: alSet rest k' v := by
          simp [alSet, hp]
        rw [hstep, keysOf_cons, List.mem_cons]
        rcases h with h | h
        · exact Or.inl h
        · exact Or.inr (ih h)

theorem mem_keysOf_alDel {β : Type} (m : List (String × β)) (k' k : String)
    (hne : k ≠ k') (h : k ∈ keysOf m) : k ∈ keysOf (alDel m k') := by
  induction m with
  | nil => simp [keysOf] at h
  | cons p rest ih =>
      obtain ⟨k1, v1⟩ := p
      rw [keysOf_cons, List.mem_cons] at h
      by_cases hp : k1 = k'
      · have hstep : alDel ((k1, v1) :: rest) k' = alDel rest k' := by
          simp [alDel, hp]
        rw [hstep]
        rcases h with h | h
        · exact absurd (h.trans hp) hne
        · exact ih h
      · have hstep : alDel ((k1, v1) :: rest) k' = (k1, v1) :: alDel rest k' := by
          simp [alDel, hp]
        rw [hstep, keysOf_cons, List.mem_cons]
        rcases h with h | h
        · exact Or.inl h
        · exact Or.inr (ih h)

/-- `alGet` through a map that only transforms values. -/
theorem alGet_valueMap {β γ : Type} (g : β → γ) (m : List (String × β)) (k : String) :
    alGet (m.map (fun p => (p.1, g p.2))) k = (alGet m k).map g := by
  induction m with
  | nil => rfl
  | cons p rest ih =>
      obtain ⟨k1, v1⟩ := p
      by_cases hp : k1 = k
      · simp [alGet, hp]
      · simp [alGet, hp, ih]

/-- `keysOf` through a map that only transforms values. -/
theorem keysOf_valueMap {β γ : Type} (g : β → γ) (m : List (String × β)) :
    keysOf (m.map (fun p => (p.1, g p.2))) = keysOf m := by
  induction m with
  | nil => rfl
  | cons p rest ih =>
      obtain ⟨k1, v1⟩ := p
      rw [List.map_cons, keysOf_cons, keysOf_cons, ih]

/-! ## `prefixFieldClashes` lemmas -/

theorem length_fields_prefix_ne (c : String) : "fields." ++ c ≠ c := by
  intro he
  have hlen := congrArg String.length he
  rw [String.length_append] at hlen
  have h7 : ("fields." : String).length = 7 := rfl
  omega

theorem prefixFieldClashes_of_get (d : Fields) {c : String} {v : GoValue}
    (hv : alGet d c = some v) :
    prefixFieldClashes d c = alDel (alSet d ("fields." ++ c) v) c := by
  unfold prefixFieldClashes
  rw [hv]

theorem prefixFieldClashes_of_none (d : Fields) {c : String}
    (hv : alGet d c = none) : prefixFieldClashes d c = d := by
  unfold prefixFieldClashes
  rw [hv]

/-- A key other than the clashing one and its renamed form is untouched. -/
theorem alGet_prefixFieldClashes_ne (d : Fields) {c k : String}
    (h1 : k ≠ c) (h2 : k ≠ "fields." ++ c) :
    alGet (prefixFieldClashes d c) k = alGet d k := by
  cases hv : alGet d c with
  | none => rw [prefixFieldClashes_of_none d hv]
  | some v =>
      rw [prefixFieldClashes_of_get d hv, alGet_alDel_ne _ (Ne.symm h1),
        alGet_alSet_ne _ (Ne.symm h2)]

/-- When the clashing key is present, its value moves to the renamed key
and the clashing key disappears. -/
theorem alGet_prefixFieldClashes_moved (d : Fields) {c : String} {v : GoValue}
    (hv : alGet d c = some v) :
    alGet (prefixFieldClashes d c) ("fields." ++ c) = some v ∧
      alGet (prefixFieldClashes d c) c = none := by
  rw [prefixFieldClashes_of_get d hv]
  constructor
  · rw [alGet_alDel_ne _ (Ne.symm (length_fields_prefix_ne c)), alGet_alSet_self]
  · exact alGet_alDel_self _ _

/-- With the clashing key absent nothing changes, so it stays absent. -/
theorem alGet_prefixFieldClashes_self_none (d : Fields) (c : String) :
    alGet (prefixFieldClashes d c) c = none ∨
      alGet (prefixFieldClashes d c) c = alGet d c := by
  cases hv : alGet d c with
  | none => exact Or.inr (by rw [prefixFieldClashes_of_none d hv, hv])
  | some v => exact Or.inl (alGet_prefixFieldClashes_moved d hv).2

/-- Key membership survives renaming of a different key. -/
theorem mem_keysOf_prefixFieldClashes (d : Fields) {c k : String}
    (h1 : k ≠ c) (hk : k ∈ keysOf d) : k ∈ keysOf (prefixFieldClashes d c) := by
  cases hv : alGet d c with
  | none => rw [prefixFieldClashes_of_none d hv]; exact hk
  | some v =>
      rw [prefixFieldClashes_of_get d hv]
      exact mem_keysOf_alDel _ _ _ h1 (mem_keysOf_alSet _ _ _ _ hk)

/-! ## Claim theorems -/

/-- C9: the Field Policy sorting function only reorders its input key list:
the output is a permutation of the input, so no name is added, removed or
rewritten. -/
theorem sortingFunc_is_permutation (fieldOrder : FieldOrder) (keys : List String) :
    (SortingFuncDecorator fieldOrder keys).Perm keys :=
  List.perm_insertionSort _ keys

/-- C4: the Field Policy ordering is a total order and deterministic —
the sorted output is ordered by descending weight with ties broken by
ascending name, and any permutation of the same key list that is ordered
this way is equal to it, so a fixed key set has exactly one output order. -/
theorem sortingFunc_total_order_deterministic (fieldOrder : FieldOrder)
    (keys : List String) :
    List.Sorted (fieldOrdSpec fieldOrder) (SortingFuncDecorator fieldOrder keys) ∧
    ∀ l' : List String, l'.Perm keys →
      List.Sorted (fieldOrdSpec fieldOrder) l' →
      l' = SortingFuncDecorator fieldOrder keys := by
  have hs : List.Sorted (sortRel fieldOrder)
      (List.insertionSort (sortRel fieldOrder) keys) :=
    List.sorted_insertionSort _ keys
  constructor
  · exact List.Pairwise.imp (fun h => (sortRel_iff _ _ _).mp h) hs
  · intro l' hperm hsort'
    exact List.eq_of_perm_of_sorted
      (hperm.trans (List.perm_insertionSort (sortRel fieldOrder) keys).symm)
      (List.Pairwise.imp (fun h => (sortRel_iff _ _ _).mpr h) hsort') hs

/-- C4 witness: a fully weighted key set has its descending-weight order
as the unique Field Policy order. -/
theorem sortingFunc_total_order_deterministic_witness :
    ["z", "y", "x", "c", "b", "a"] =
      SortingFuncDecorator
        [("a", 1), ("b", 2), ("c", 3), ("x", 4), ("y", 5), ("z", 6)]
        ["a", "b", "c", "x", "y", "z"] :=
  (sortingFunc_total_order_deterministic
      [("a", 1), ("b", 2), ("c", 3), ("x", 4), ("y", 5), ("z", 6)]
      ["a", "b", "c", "x", "y", "z"]).2
    ["z", "y", "x", "c", "b", "a"] (by decide) (by decide)

/-- C2 counterexample: a name whose configured weight is exactly
`DisabledFieldWeight` still appears in the sorted key list, so the
ordering stage does not suppress it. -/
theorem sortingFunc_no_drop_counterexample :
    weightOf [("x", DisabledFieldWeight)] "x" ≤ DisabledFieldWeight ∧
      "x" ∈ SortingFuncDecorator [("x", DisabledFieldWeight)] ["x", "y"] := by
  constructor
  · decide
  · decide

/-- C2 (amended): the ordering stage drops nothing — every input name,
including one whose weight is at or below `DisabledFieldWeight`, still
appears in the output key list (the drop stage `dropDisabled` is commented
out in the source as NOT IMPLEMENTED). -/
theorem sortingFunc_keeps_disabled_weight (fieldOrder : FieldOrder)
    (keys : List String) (k : String) (hk : k ∈ keys)
    (_hw : weightOf fieldOrder k ≤ DisabledFieldWeight) :
    k ∈ SortingFuncDecorator fieldOrder keys :=
  (List.mem_insertionSort (sortRel fieldOrder)).mpr hk

/-- C2 witness: the suppressed-weight name "x" is kept. -/
theorem sortingFunc_keeps_disabled_weight_witness :
    "x" ∈ SortingFuncDecorator [("x", DisabledFieldWeight)] ["x", "y"] :=
  sortingFunc_keeps_disabled_weight [("x", DisabledFieldWeight)] ["x", "y"] "x"
    (by decide) (by decide)

theorem sdNameByte_spec (b : Nat) :
    sdNameByte b = if sdAllowedByte b then b else '_'.toNat := by
  unfold sdNameByte sdAllowedByte
  have h1 : '!'.toNat = 33 := rfl
  have h2 : '~'.toNat = 126 := rfl
  have h3 : '='.toNat = 61 := rfl
  have h4 : ' '.toNat = 32 := rfl
  have h5 : ']'.toNat = 93 := rfl
  have h6 : '"'.toNat = 34 := rfl
  rw [h1, h2, h3, h4, h5, h6]
  by_cases hc : b < 33 ∨ b > 126 ∨ b = 61 ∨ b = 32 ∨ b = 93 ∨ b = 34
  · rw [if_pos hc]
    have : (33 ≤ b && b ≤ 126 && b ≠ 61 && b ≠ 32 && b ≠ 93 && b ≠ 34) = false := by
      simp only [Bool.and_eq_false_iff, decide_eq_false_iff_not, not_le, ne_eq,
        Decidable.not_not, decide_eq_true_eq]
      omega
    rw [this]
    rfl
  · rw [if_neg hc]
    have : (33 ≤ b && b ≤ 126 && b ≠ 61 && b ≠ 32 && b ≠ 93 && b ≠ 34) = true := by
      simp only [Bool.and_eq_true, decide_eq_true_eq, ne_eq, decide_not,
        Bool.not_eq_true', decide_eq_false_iff_not]
      omega
    rw [this]
    rfl

theorem sdNameByte_idem (b : Nat) : sdNameByte (sdNameByte b) = sdNameByte b := by
  rw [sdNameByte_spec b]
  by_cases h : sdAllowedByte b = true
  · rw [if_pos h, sdNameByte_spec, if_pos h]
  · rw [if_neg h]
    have : sdAllowedByte '_'.toNat = true := by decide
    rw [sdNameByte_spec, if_pos this]

/-- C6: SD-NAME sanitization works byte by byte — a byte outside the
printable `'!'..'~'` range or one of `'='`, space, `']'`, `'"'` becomes
`'_'` and every other byte is unchanged — and the transform is idempotent:
sanitizing an already-sanitized name returns it unchanged. -/
theorem fixStructuredDataName_sanitize_idem (l : List Nat) :
    FixStructuredDataNameBytes l = l.map sdNameByte ∧
    (∀ b : Nat, sdNameByte b = if sdAllowedByte b then b else '_'.toNat) ∧
    FixStructuredDataNameBytes (FixStructuredDataNameBytes l) =
      FixStructuredDataNameBytes l := by
  have hmap : ∀ l' : List Nat, FixStructuredDataNameBytes l' = l'.map sdNameByte := by
    intro l'
    induction l' with
    | nil => rfl
    | cons b rest ih => rw [FixStructuredDataNameBytes, ih, List.map_cons]
  refine ⟨hmap l, sdNameByte_spec, ?_⟩
  rw [hmap, hmap, List.map_map]
  exact List.map_congr_left (fun b _ => sdNameByte_idem b)

/-- C3: call-stack truncation — with a call-stack flag enabled, when the
extracted frame list has at most `CallStackSkipLastX` frames the rendered
stack is empty, and otherwise exactly the first `n - skipLast` frames are
returned unchanged and in order; the hook `AppendCallStackToEntry` behaves
the same way on the entry's field map. -/
theorem callstack_truncation (f : AdvancedFormatter) (skip : Nat) (entry : Entry)
    (hflag : f.Flags &&& (FlagCallStackInFields ||| FlagCallStackOnConsole |||
      FlagCallStackInHTTPProblem) ≠ 0) :
    ((GetCallStackRaw entry).length ≤ f.CallStackSkipLastX →
      f.GetCallStack entry = []) ∧
    ((GetCallStackRaw entry).length > f.CallStackSkipLastX →
      f.GetCallStack entry =
        (GetCallStackRaw entry).take
          ((GetCallStackRaw entry).length - f.CallStackSkipLastX) ∧
      (f.GetCallStack entry).length =
        (GetCallStackRaw entry).length - f.CallStackSkipLastX ∧
      ∀ i < (GetCallStackRaw entry).length - f.CallStackSkipLastX,
        (f.GetCallStack entry)[i]? = (GetCallStackRaw entry)[i]?) ∧
    ((GetCallStackRaw entry).length ≤ skip →
      AppendCallStackToEntry skip entry = entry.data) ∧
    ((GetCallStackRaw entry).length > skip →
      AppendCallStackToEntry skip entry =
        alSet entry.data KeyCallStack
          (.strList ((GetCallStackRaw entry).take
            ((GetCallStackRaw entry).length - skip)))) := by
  have hmethod : f.GetCallStack entry =
      if (GetCallStackRaw entry).length > f.CallStackSkipLastX then
        (GetCallStackRaw entry).take
          ((GetCallStackRaw entry).length - f.CallStackSkipLastX)
      else [] := by
    unfold AdvancedFormatter.GetCallStack
    rw [if_pos hflag]
  refine ⟨?_, ?_, ?_, ?_⟩
  · intro hle
    rw [hmethod, if_neg (by omega)]
  · intro hgt
    rw [hmethod, if_pos hgt]
    refine ⟨rfl, ?_, ?_⟩
    · rw [List.length_take]
      omega
    · intro i hi
      exact List.getElem?_take_of_lt hi
  · intro hle
    unfold AppendCallStackToEntry
    rw [if_neg (by omega)]
  · intro hgt
    unfold AppendCallStackToEntry
    rw [if_pos hgt]

/-- C3 witness, the specification's end-to-end scenario D: a captured stack
of 5 frames with `skipLast = 7` yields an empty rendered call stack, and
the hook leaves the field map untouched. -/
theorem callstack_truncation_witness :
    AdvancedFormatter.GetCallStack ⟨FlagCallStackInHTTPProblem, 7⟩
        ⟨.error, "t", "m", none,
          [("error", .err "E" [] ["f1", "f2", "f3", "f4", "f5"])]⟩ = [] ∧
      AppendCallStackToEntry 7
        ⟨.error, "t", "m", none,
          [("error", .err "E" [] ["f1", "f2", "f3", "f4", "f5"])]⟩ =
        [("error", .err "E" [] ["f1", "f2", "f3", "f4", "f5"])] :=
  ⟨(callstack_truncation ⟨FlagCallStackInHTTPProblem, 7⟩ 7
      ⟨.error, "t", "m", none,
        [("error", .err "E" [] ["f1", "f2", "f3", "f4", "f5"])]⟩
      (by decide)).1 (by decide),
   (callstack_truncation ⟨FlagCallStackInHTTPProblem, 7⟩ 7
      ⟨.error, "t", "m", none,
        [("error", .err "E" [] ["f1", "f2", "f3", "f4", "f5"])]⟩
      (by decide)).2.2.1 (by decide)⟩

/-- The clashing key itself is always absent after renaming. -/
theorem alGet_prefixFieldClashes_self_eq_none (d : Fields) (c : String) :
    alGet (prefixFieldClashes d c) c = none := by
  cases hv : alGet d c with
  | none => rw [prefixFieldClashes_of_none d hv]; exact hv
  | some v => exact (alGet_prefixFieldClashes_moved d hv).2

/-- C10: when the field map already holds both `"msg"` and `"fields.msg"`,
renaming the reserved key `"msg"` overwrites the pre-existing
`"fields.msg"` binding with `"msg"`'s value and removes `"msg"`, so the
original `"fields.msg"` value is lost. -/
theorem prefixFieldClashes_overwrites (d : Fields) (v0 v1 : GoValue)
    (h1 : alGet d "msg" = some v1) (_h0 : alGet d "fields.msg" = some v0) :
    alGet (prefixFieldClashes d "msg") "fields.msg" = some v1 ∧
      alGet (prefixFieldClashes d "msg") "msg" = none := by
  have hm := alGet_prefixFieldClashes_moved d h1
  have hfm : ("fields." ++ "msg" : String) = "fields.msg" := rfl
  rw [hfm] at hm
  exact hm

/-- C10 witness: with `msg = "A"` and `fields.msg = "B"`, renaming leaves
`fields.msg = "A"` and no `msg`; the value `"B"` is gone. -/
theorem prefixFieldClashes_overwrites_witness :
    alGet (prefixFieldClashes [("msg", .str "A"), ("fields.msg", .str "B")] "msg")
        "fields.msg" = some (.str "A") ∧
      alGet (prefixFieldClashes [("msg", .str "A"), ("fields.msg", .str "B")] "msg")
        "msg" = none :=
  prefixFieldClashes_overwrites _ (.str "B") (.str "A") rfl rfl

/-- After HTTP field preparation the key `"msg"` is always absent: the
clash renaming moves any user `"msg"` field away and nothing puts the
record's message into the field map. -/
theorem alGet_ite_alSet_ne {c : Prop} [Decidable c] (d : Fields) {k' k : String}
    {v : GoValue} (h : k' ≠ k) :
    alGet (if c then alSet d k' v else d) k = alGet d k := by
  by_cases hc : c
  · rw [if_pos hc, alGet_alSet_ne _ h]
  · rw [if_neg hc]

theorem alGet_prepareFieldsHTTP_msg_none (f : AdvancedFormatter) (entry : Entry) :
    alGet (f.PrepareFields entry GetClashingFieldsHTTP) "msg" = none := by
  unfold AdvancedFormatter.PrepareFields
  cases entry.caller with
  | none =>
      simp only [GetClashingFieldsHTTP, List.foldl, RenderFieldValues]
      by_cases hlv : entry.level ≠ LogLevel.panic
      · rw [if_pos hlv, alGet_alSet_ne _ (by decide), alGet_valueMap,
          alGet_ite_alSet_ne _ (by decide),
          alGet_prefixFieldClashes_ne _ (by decide) (by decide),
          alGet_prefixFieldClashes_ne _ (by decide) (by decide),
          alGet_prefixFieldClashes_self_eq_none]
        rfl
      · rw [if_neg hlv, alGet_valueMap,
          alGet_ite_alSet_ne _ (by decide),
          alGet_prefixFieldClashes_ne _ (by decide) (by decide),
          alGet_prefixFieldClashes_ne _ (by decide) (by decide),
          alGet_prefixFieldClashes_self_eq_none]
        rfl
  | some c =>
      simp only [GetClashingFieldsHTTP, List.foldl, RenderFieldValues]
      by_cases hlv : entry.level ≠ LogLevel.panic
      · rw [if_pos hlv, alGet_alSet_ne _ (by decide), alGet_alSet_ne _ (by decide),
          alGet_alSet_ne _ (by decide), alGet_valueMap,
          alGet_ite_alSet_ne _ (by decide),
          alGet_prefixFieldClashes_ne _ (by decide) (by decide),
          alGet_prefixFieldClashes_ne _ (by decide) (by decide),
          alGet_prefixFieldClashes_self_eq_none]
        rfl
      · rw [if_neg hlv, alGet_alSet_ne _ (by decide), alGet_alSet_ne _ (by decide),
          alGet_valueMap,
          alGet_ite_alSet_ne _ (by decide),
          alGet_prefixFieldClashes_ne _ (by decide) (by decide),
          alGet_prefixFieldClashes_ne _ (by decide) (by decide),
          alGet_prefixFieldClashes_self_eq_none]
        rfl

/-- With no attached error, the HTTP problem's `detail` member is always
the empty string: the fallback to the record message cannot trigger
because `"msg"` is never present in the prepared field map. -/
theorem buildHTTPProblem_detail_empty (f : AdvancedFormatter) (statusCode : Nat)
    (entry : Entry) (herr : GetError entry = none) :
    (BuildHTTPProblem f statusCode entry).detail = "" := by
  unfold BuildHTTPProblem
  simp only [herr]
  rw [alGet_alSet_ne _ (by decide), alGet_prepareFieldsHTTP_msg_none]

/-- C1 (failing input): a record with message `"not found"`, no attached
error and status 404 yields `detail = ""` — not the log message the
specification promises — while `title` is the canonical reason phrase. -/
theorem buildHTTPProblem_404_no_error_detail :
    (BuildHTTPProblem ⟨0, 0⟩ 404
        ⟨.info, "2020-01-01T00:00:00Z", "not found", none, []⟩).detail = "" ∧
      (BuildHTTPProblem ⟨0, 0⟩ 404
        ⟨.info, "2020-01-01T00:00:00Z", "not found", none, []⟩).detail ≠
          "not found" ∧
      (BuildHTTPProblem ⟨0, 0⟩ 404
        ⟨.info, "2020-01-01T00:00:00Z", "not found", none, []⟩).title =
          "Not Found" :=
  ⟨rfl, by decide, rfl⟩

/-! ## Helper lemmas for the emitter theorems -/

theorem renderErrValue_eq_self {v : GoValue} (h : isGoError v = false) :
    renderErrValue v = v := by
  cases v <;> first | rfl | simp [isGoError] at h

theorem mergeDetails_no_error (f : AdvancedFormatter) (entry : Entry)
    (h : GetError entry = none) : MergeDetailsToFields f entry = entry.data := by
  unfold MergeDetailsToFields
  by_cases hf : f.Flags &&& FlagExtractDetails ≠ 0
  · rw [if_pos hf, h]
  · rw [if_neg hf]

/-- After syslog field preparation, a user field named `"msg"` sits under
`"fields.msg"` with its value untouched. -/
theorem alGet_prepareFieldsSyslog_fieldsmsg (entry : Entry) {v : GoValue}
    (hmsg : alGet entry.data "msg" = some v) :
    alGet (PrepareFields entry GetClashingFieldsSyslog) "fields.msg" = some v := by
  unfold PrepareFields
  simp only [GetClashingFieldsSyslog, List.foldl]
  have hstep : alGet (prefixFieldClashes (prefixFieldClashes
      (prefixFieldClashes entry.data "level") "time") "func") "msg" = some v := by
    rw [alGet_prefixFieldClashes_ne _ (by decide) (by decide),
      alGet_prefixFieldClashes_ne _ (by decide) (by decide),
      alGet_prefixFieldClashes_ne _ (by decide) (by decide), hmsg]
  have hmoved := (alGet_prefixFieldClashes_moved _ hstep).1
  rw [show ("fields." ++ "msg" : String) = "fields.msg" from rfl] at hmoved
  have hfile : alGet (prefixFieldClashes (prefixFieldClashes (prefixFieldClashes
      (prefixFieldClashes (prefixFieldClashes entry.data "level") "time") "func")
      "msg") "file") "fields.msg" = some v := by
    rw [alGet_prefixFieldClashes_ne _ (by decide) (by decide)]
    exact hmoved
  cases entry.caller with
  | none =>
      rw [alGet_alSet_ne _ (by decide)]
      exact hfile
  | some c =>
      rw [alGet_alSet_ne _ (by decide), alGet_alSet_ne _ (by decide),
        alGet_alSet_ne _ (by decide)]
      exact hfile

/-- Syslog field preparation keeps the `"callstack"` key. -/
theorem mem_keysOf_prepareFieldsSyslog_callstack (entry : Entry)
    (h : KeyCallStack ∈ keysOf entry.data) :
    KeyCallStack ∈ keysOf (PrepareFields entry GetClashingFieldsSyslog) := by
  unfold PrepareFields
  simp only [GetClashingFieldsSyslog, List.foldl]
  have hfold : KeyCallStack ∈ keysOf (prefixFieldClashes (prefixFieldClashes
      (prefixFieldClashes (prefixFieldClashes (prefixFieldClashes entry.data
        "level") "time") "func") "msg") "file") := by
    refine mem_keysOf_prefixFieldClashes _ (by decide) ?_
    refine mem_keysOf_prefixFieldClashes _ (by decide) ?_
    refine mem_keysOf_prefixFieldClashes _ (by decide) ?_
    refine mem_keysOf_prefixFieldClashes _ (by decide) ?_
    exact mem_keysOf_prefixFieldClashes _ (by decide) h
  cases entry.caller with
  | none => exact mem_keysOf_alSet _ _ _ _ hfold
  | some c =>
      exact mem_keysOf_alSet _ _ _ _ (mem_keysOf_alSet _ _ _ _
        (mem_keysOf_alSet _ _ _ _ hfold))

theorem sdNameChar_ne_underscore {c d : Char} (h : sdNameChar c = d)
    (hd : d ≠ '_') : c = d := by
  unfold sdNameChar at h
  by_cases hc : c.toNat < '!'.toNat ∨ c.toNat > '~'.toNat ∨ c = '=' ∨ c = ' ' ∨
      c = ']' ∨ c = '"'
  · rw [if_pos hc] at h
    exact absurd h (Ne.symm hd)
  · rw [if_neg hc] at h
    exact h

theorem map_sdNameChar_eq_target {l t : List Char} (ht : ∀ c ∈ t, c ≠ '_')
    (h : l.map sdNameChar = t) : l = t := by
  induction l generalizing t with
  | nil => rw [List.map_nil] at h; exact h
  | cons a as ih =>
      cases t with
      | nil => simp at h
      | cons b bs =>
          rw [List.map_cons, List.cons.injEq] at h
          have hb : a = b :=
            sdNameChar_ne_underscore h.1 (ht b (List.mem_cons_self _ _))
          rw [hb, ih (fun c hc => ht c (List.mem_cons_of_mem _ hc)) h.2]

/-- Only the key `"callstack"` itself sanitizes to `"callstack"`. -/
theorem fixStructuredDataName_eq_callstack {k : String}
    (h : FixStructuredDataName k = KeyCallStack) : k = KeyCallStack := by
  unfold FixStructuredDataName at h
  have hdata : k.data.map sdNameChar = KeyCallStack.data := congrArg String.data h
  have hk : k.data = KeyCallStack.data :=
    map_sdNameChar_eq_target (by decide) hdata
  cases k with
  | mk data =>
      rw [show (String.mk data).data = data from rfl] at hk
      rw [hk]

/-- C5: reserved-name collision renaming is lossless for the renamed
field — a detail field literally named `"msg"` survives field preparation
under `"fields.msg"` with its value intact, the corresponding param
appears in the syslog `details` element, and the record's own message is
still emitted as the MSG part of the line. -/
theorem clash_rename_lossless (f : AdvancedSyslogFormatter) (entry : Entry)
    (v : GoValue) (hmsg : alGet entry.data "msg" = some v)
    (hnoerr : isGoError v = false) :
    alGet (RenderErrorInEntry (PrepareFields entry GetClashingFieldsSyslog))
        "fields.msg" = some v ∧
    (∃ params, (f.Format entry).structuredData.head? =
        some ⟨StructuredIDDetails, params⟩ ∧
      ("fields.msg", appendValue v (f.Flags &&& FlagTrimJSONDquote ≠ 0)) ∈ params) ∧
    (f.Format entry).msg = entry.message := by
  have hprep := alGet_prepareFieldsSyslog_fieldsmsg entry hmsg
  have hdata : alGet (RenderErrorInEntry (PrepareFields entry
      GetClashingFieldsSyslog)) "fields.msg" = some v := by
    unfold RenderErrorInEntry
    rw [alGet_valueMap, hprep]
    show some (renderErrValue v) = some v
    rw [renderErrValue_eq_self hnoerr]
  refine ⟨hdata, ?_, ?_⟩
  · unfold AdvancedSyslogFormatter.Format
    simp only []
    have hmemsorted : "fields.msg" ∈ SortingFuncDecorator AdvancedFieldOrder
        ((keysOf (RenderErrorInEntry (PrepareFields entry
          GetClashingFieldsSyslog))).filter (fun k => k ≠ KeyCallStack)) := by
      unfold SortingFuncDecorator
      refine (List.mem_insertionSort _).mpr ?_
      refine List.mem_filter.mpr ⟨mem_keysOf_of_alGet hdata, by decide⟩
    by_cases hKc : KeyCallStack ∈ keysOf (RenderErrorInEntry (PrepareFields entry
        GetClashingFieldsSyslog))
    · rw [if_pos hKc]
      refine ⟨_, rfl, ?_⟩
      refine List.mem_map.mpr ⟨"fields.msg", hmemsorted, ?_⟩
      rw [hdata]
      unfold JSONDataElement.Append
      rw [show FixStructuredDataName "fields.msg" = "fields.msg" by decide]
      rfl
    · rw [if_neg hKc]
      refine ⟨_, rfl, ?_⟩
      refine List.mem_map.mpr ⟨"fields.msg", hmemsorted, ?_⟩
      rw [hdata]
      unfold JSONDataElement.Append
      rw [show FixStructuredDataName "fields.msg" = "fields.msg" by decide]
      rfl
  · rfl

/-- C5 witness: a record with field `msg = "V"` and message `"USER MSG"`:
the field survives as `fields.msg = "V"`, its param is in the `details`
element, and the MSG part is `"USER MSG"`. -/
theorem clash_rename_lossless_witness :
    alGet (RenderErrorInEntry (PrepareFields
        ⟨.info, "T", "USER MSG", none, [("msg", GoValue.str "V")]⟩
        GetClashingFieldsSyslog)) "fields.msg" = some (GoValue.str "V") ∧
    (∃ params, (AdvancedSyslogFormatter.Format ⟨0, ""⟩
        ⟨.info, "T", "USER MSG", none,
          [("msg", GoValue.str "V")]⟩).structuredData.head? =
        some ⟨StructuredIDDetails, params⟩ ∧
      ("fields.msg", appendValue (GoValue.str "V")
        ((0 : Nat) &&& FlagTrimJSONDquote ≠ 0)) ∈ params) ∧
    (AdvancedSyslogFormatter.Format ⟨0, ""⟩
      ⟨.info, "T", "USER MSG", none,
        [("msg", GoValue.str "V")]⟩).msg = "USER MSG" :=
  clash_rename_lossless ⟨0, ""⟩
    ⟨.info, "T", "USER MSG", none, [("msg", GoValue.str "V")]⟩
    (GoValue.str "V") rfl rfl

/-- C7: with a `"callstack"` field present and no configured MSGID, the
syslog emitter produces exactly two structured-data elements — `details`
(whose params never include the call-stack key) and `calls` (whose only
param is the call-stack key) — and the MSGID becomes `DETAILS_CALLS_MSG`. -/
theorem syslog_callstack_element (f : AdvancedSyslogFormatter) (entry : Entry)
    (hcs : KeyCallStack ∈ keysOf entry.data) (hmsgid : f.MsgID = "") :
    (f.Format entry).structuredData.map JSONDataElement.id =
      [StructuredIDDetails, StructuredIDCallStack] ∧
    (∀ elem ∈ (f.Format entry).structuredData, elem.id = StructuredIDDetails →
      ∀ p ∈ elem.params, p.1 ≠ KeyCallStack) ∧
    (∃ elem ∈ (f.Format entry).structuredData,
      elem.id = StructuredIDCallStack ∧ elem.params.map Prod.fst = [KeyCallStack]) ∧
    (f.Format entry).msgID = "DETAILS_CALLS_MSG" := by
  have hKc : KeyCallStack ∈ keysOf (RenderErrorInEntry (PrepareFields entry
      GetClashingFieldsSyslog)) := by
    unfold RenderErrorInEntry
    rw [keysOf_valueMap]
    exact mem_keysOf_prepareFieldsSyslog_callstack entry hcs
  unfold AdvancedSyslogFormatter.Format
  simp only []
  rw [if_pos hKc]
  refine ⟨?_, ?_, ?_, ?_⟩
  · rfl
  · intro elem helem hid p hp
    rw [List.mem_cons, List.mem_singleton] at helem
    rcases helem with helem | helem
    · subst helem
      simp only [] at hp
      rcases List.mem_map.mp hp with ⟨k, hk, hpk⟩
      have hkne : k ≠ KeyCallStack := by
        have := List.mem_filter.mp ((List.mem_insertionSort _).mp hk)
        simpa using this.2
      intro hcontra
      apply hkne
      apply fixStructuredDataName_eq_callstack
      rw [← hpk] at hcontra
      exact hcontra
    · subst helem
      simp [StructuredIDCallStack, StructuredIDDetails] at hid
  · refine ⟨_, List.mem_cons_of_mem _ (List.mem_singleton.mpr rfl), rfl, ?_⟩
    simp only [List.map_cons, List.map_nil]
    rw [show (JSONDataElement.Append KeyCallStack
      ((alGet (RenderErrorInEntry (PrepareFields entry GetClashingFieldsSyslog))
        KeyCallStack).getD (GoValue.str "")) (f.Flags &&& FlagTrimJSONDquote ≠ 0)).1 =
      FixStructuredDataName KeyCallStack from rfl]
    rw [show FixStructuredDataName KeyCallStack = KeyCallStack by decide]
  · rw [hmsgid]
    rw [if_pos (rfl : ("" : String) = ""), if_pos hKc]

/-- C7 witness: an entry whose data has the `callstack` key, formatted
with no configured MSGID. -/
theorem syslog_callstack_element_witness :
    (AdvancedSyslogFormatter.Format ⟨0, ""⟩
        ⟨.info, "T", "M", none,
          [("callstack", GoValue.strList ["x() y:1"])]⟩).structuredData.map
        JSONDataElement.id = [StructuredIDDetails, StructuredIDCallStack] ∧
    (AdvancedSyslogFormatter.Format ⟨0, ""⟩
        ⟨.info, "T", "M", none,
          [("callstack", GoValue.strList ["x() y:1"])]⟩).msgID =
      "DETAILS_CALLS_MSG" := by
  have h := syslog_callstack_element ⟨0, ""⟩
    ⟨.info, "T", "M", none, [("callstack", GoValue.strList ["x() y:1"])]⟩
    (by decide) rfl
  exact ⟨h.1, h.2.2.2⟩

theorem renderFieldValue_id (f : AdvancedFormatter) (v : GoValue)
    (hflag : f.Flags &&& FlagPrintStructFieldNames = 0)
    (hv : isGoError v = false) : renderFieldValue f v = v := by
  cases v with
  | err m det st => simp [isGoError] at hv
  | str s =>
      unfold renderFieldValue
      rw [hflag]
      simp
  | int n =>
      unfold renderFieldValue
      rw [hflag]
      simp
  | bool b =>
      unfold renderFieldValue
      rw [hflag]
      simp
  | strList xs =>
      unfold renderFieldValue
      rw [hflag]
      simp
  | bad m2 =>
      unfold renderFieldValue
      rw [hflag]
      simp

/-- A field key outside every reserved name and renamed form passes
through HTTP field preparation with only the value-rendering applied. -/
theorem alGet_prepareFieldsHTTP_preserved (f : AdvancedFormatter) (entry : Entry)
    (k : String) (herr : GetError entry = none)
    (hne : k ∉ (["time", "func", "msg", "file", "callstack", "level",
      "fields.time", "fields.func", "fields.msg", "fields.file",
      "fields.callstack"] : List String)) :
    alGet (f.PrepareFields entry GetClashingFieldsHTTP) k =
      (alGet entry.data k).map (renderFieldValue f) := by
  simp only [List.mem_cons, not_or, List.not_mem_nil, not_false_iff,
    and_true] at hne
  obtain ⟨ht, hfu, hm, hfi, hcs, hlv, hft, hff, hfm, hffi, hfcs⟩ := hne
  have hfold : alGet (prefixFieldClashes (prefixFieldClashes (prefixFieldClashes
      (prefixFieldClashes (prefixFieldClashes (MergeDetailsToFields f entry)
        "time") "func") "msg") "file") "callstack") k = alGet entry.data k := by
    rw [alGet_prefixFieldClashes_ne _ hcs hfcs,
      alGet_prefixFieldClashes_ne _ hfi hffi,
      alGet_prefixFieldClashes_ne _ hm hfm,
      alGet_prefixFieldClashes_ne _ hfu hff,
      alGet_prefixFieldClashes_ne _ ht hft,
      mergeDetails_no_error f entry herr]
  unfold AdvancedFormatter.PrepareFields
  cases entry.caller with
  | none =>
      simp only [GetClashingFieldsHTTP, KeyCallStack, List.foldl,
        RenderFieldValues]
      by_cases hl : entry.level ≠ LogLevel.panic
      · rw [if_pos hl, alGet_alSet_ne _ (Ne.symm hlv), alGet_valueMap,
          alGet_ite_alSet_ne _ (Ne.symm hcs), hfold]
      · rw [if_neg hl, alGet_valueMap, alGet_ite_alSet_ne _ (Ne.symm hcs), hfold]
  | some c =>
      simp only [GetClashingFieldsHTTP, KeyCallStack, List.foldl,
        RenderFieldValues]
      by_cases hl : entry.level ≠ LogLevel.panic
      · rw [if_pos hl, alGet_alSet_ne _ (Ne.symm hlv),
          alGet_alSet_ne _ (Ne.symm hfi), alGet_alSet_ne _ (Ne.symm hfu),
          alGet_valueMap, alGet_ite_alSet_ne _ (Ne.symm hcs), hfold]
      · rw [if_neg hl, alGet_alSet_ne _ (Ne.symm hfi),
          alGet_alSet_ne _ (Ne.symm hfu), alGet_valueMap,
          alGet_ite_alSet_ne _ (Ne.symm hcs), hfold]

/-- C8: a field value whose JSON marshalling fails is replaced by the
marshalling error's message string, both in a syslog structured-data param
and in the HTTP problem's `details` map, and the problem document is still
fully produced (type, title and status are all present). -/
theorem marshal_failure_recovered (f : AdvancedFormatter) (statusCode : Nat)
    (entry : Entry) (name m k : String)
    (hflag : f.Flags &&& FlagPrintStructFieldNames = 0)
    (herr : GetError entry = none)
    (hk : alGet entry.data k = some (.bad m))
    (hkres : k ∉ (["time", "func", "msg", "file", "callstack", "level",
      "fields.time", "fields.func", "fields.msg", "fields.file",
      "fields.callstack"] : List String)) :
    JSONDataElement.Append name (.bad m) false = (FixStructuredDataName name, m) ∧
    alGet (BuildHTTPProblem f statusCode entry).details k = some m ∧
    (BuildHTTPProblem f statusCode entry).status = statusCode ∧
    (BuildHTTPProblem f statusCode entry).title = statusText statusCode ∧
    (BuildHTTPProblem f statusCode entry).type_ = "about:blank" := by
  have ht : k ≠ "time" := by
    intro he
    exact hkres (by rw [he]; exact List.mem_cons_self _ _)
  refine ⟨?_, ?_, rfl, rfl, rfl⟩
  · simp [JSONDataElement.Append, appendValue, jsonValueOf, JSONMarshal]
  · unfold BuildHTTPProblem
    simp only []
    rw [alGet_valueMap, alGet_alSet_ne _ (Ne.symm ht),
      alGet_prepareFieldsHTTP_preserved f entry k herr hkres, hk]
    show some (jsonValueOf (renderFieldValue f (.bad m))) = some m
    rw [renderFieldValue_id f (GoValue.bad m) hflag rfl]
    rfl

/-- C8 witness: a field `K` holding an unmarshalable value: the problem
body carries the error text under `K` and is complete. -/
theorem marshal_failure_recovered_witness :
    JSONDataElement.Append "N" (.bad "json: unsupported type: chan int") false =
      (FixStructuredDataName "N", "json: unsupported type: chan int") ∧
    alGet (BuildHTTPProblem ⟨0, 0⟩ 404
        ⟨.info, "T", "M", none,
          [("K", GoValue.bad "json: unsupported type: chan int")]⟩).details "K" =
      some "json: unsupported type: chan int" ∧
    (BuildHTTPProblem ⟨0, 0⟩ 404
        ⟨.info, "T", "M", none,
          [("K", GoValue.bad "json: unsupported type: chan int")]⟩).status = 404 ∧
    (BuildHTTPProblem ⟨0, 0⟩ 404
        ⟨.info, "T", "M", none,
          [("K", GoValue.bad "json: unsupported type: chan int")]⟩).title =
      statusText 404 ∧
    (BuildHTTPProblem ⟨0, 0⟩ 404
        ⟨.info, "T", "M", none,
          [("K", GoValue.bad "json: unsupported type: chan int")]⟩).type_ =
      "about:blank" :=
  marshal_failure_recovered ⟨0, 0⟩ 404
    ⟨.info, "T", "M", none,
      [("K", GoValue.bad "json: unsupported type: chan int")]⟩
    "N" "json: unsupported type: chan int" "K" rfl rfl rfl (by decide)
